import Mathlib

/-!
# Verification of the `mcp-to-typescript-codegen` schema-to-type translators

Shallow embedding of the repository's core logic:

* `JsonValue`, `jsonStringify` — JSON literal values (as they occur in `enum`
  lists) and their `JSON.stringify` textual form.  Numbers are modelled as
  integers; floating-point formatting is outside the embedding.
* `SchemaNode` — the `JsonSchema` record type declared in both
  `src/src/index.ts` (lines 366-379) and `src/unnamed/part_001` (lines 71-84).
  The extra constructor `nonObject` stands for a runtime value that is `null`,
  `undefined` or not an object, which the translators guard against with
  `if (!schema || typeof schema !== "object") return "unknown"`.
  `properties` is an insertion-ordered association list, `required` a list of
  names (the source builds a `Set` from it and only tests membership), and
  `additionalProperties` is `boolean | JsonSchema` as in the source.
* `IndexTS.jsonSchemaToTS` / `IndexTS.objectSchemaToTS` — the translator of
  `src/src/index.ts` lines 381-441.
* `Part001.jsonSchemaToTS` — the translator of `src/unnamed/part_001`
  lines 86-164 (the variant carrying an `indent` parameter).
* `toValidIdentifier`, `toPascalCase` — the identifier normalizer
  (`src/unnamed/part_001` lines 60-69, identical in the other files).
* `fixZodSchema` — the textual post-processing pass of `src/src/index.ts`
  lines 74-82, embedded as an explicit scanner implementing the global
  replacement of the regular expression
  `(\.(string|number|boolean|date|bigint|symbol)\(\))((?:\.[a-z]+\([^)]*\))*)\.default\(null\)`
  by `$1.nullable()$3.default(null)`.
* `IndexTS.emitToolSchema` / `IndexTS.generateSchemas` — the per-tool
  conversion step of `main` in `src/src/index.ts` lines 156-162, with the
  external library call `jsonSchemaToZod` abstracted as an `Except` input.
* `Part001.genToolDecls` — the declaration-emission loop of `main` in
  `src/unnamed/part_001` lines 230-246 restricted to the input-schema
  declarations.

Mutually recursive list workers (`tsList`, `tsFields`, …) replace the inline
`Array.prototype.map` calls of the source so that the definitions are
structurally recursive (and hence evaluate by `decide`); lemmas such as
`IndexTS.tsList_eq_map` recover the `map` form.
-/

/-- A JSON literal value, as it can occur in an `enum` list.  Numbers are
modelled as integers. -/
inductive JsonValue where
  | null
  | bool (b : Bool)
  | num (n : Int)
  | str (s : String)

/-- Lower-case hexadecimal digit, used for JSON `\u00xx` escapes. -/
def hexDigit (n : Nat) : Char :=
  if n < 10 then Char.ofNat ('0'.toNat + n) else Char.ofNat ('a'.toNat + n - 10)

/-- The escaping `JSON.stringify` applies to one character of a string. -/
def jsonEscapeChar (c : Char) : String :=
  if c = '"' then "\\\""
  else if c = '\\' then "\\\\"
  else if c = '\x08' then "\\b"
  else if c = '\x09' then "\\t"
  else if c = '\x0a' then "\\n"
  else if c = '\x0c' then "\\f"
  else if c = '\x0d' then "\\r"
  else if c.toNat < 32 then
    "\\u00" ++ String.mk [hexDigit (c.toNat / 16), hexDigit (c.toNat % 16)]
  else String.singleton c

/-- `JSON.stringify` on a JSON literal value. -/
def jsonStringify : JsonValue → String
  | .null => "null"
  | .bool true => "true"
  | .bool false => "false"
  | .num n => toString n
  | .str s => "\"" ++ String.join (s.data.map jsonEscapeChar) ++ "\""

/-- The `JsonSchema` type of the source, plus a `nonObject` constructor for a
runtime value that is not an object (`null`, `undefined`, a string, …). -/
inductive SchemaNode where
  | nonObject
  | mk
      (type : Option String)
      (properties : Option (List (String × SchemaNode)))
      (required : Option (List String))
      (items : Option SchemaNode)
      (description : Option String)
      (enum : Option (List JsonValue))
      (oneOf : Option (List SchemaNode))
      (anyOf : Option (List SchemaNode))
      (allOf : Option (List SchemaNode))
      (addProps : Option (Bool ⊕ SchemaNode))

/-- Property lists: `properties` in insertion order. -/
abbrev Props := List (String × SchemaNode)

namespace SchemaNode

/-- Field access `schema.description` (`undefined`, i.e. `none`, on a
non-object value). -/
def description : SchemaNode → Option String
  | nonObject => none
  | mk _ _ _ _ d _ _ _ _ _ => d

/-- A node whose `type` is `"string"` and nothing else set. -/
def strNode : SchemaNode :=
  mk (some "string") none none none none none none none none none

/-- A node whose `type` is `"number"` and nothing else set. -/
def numNode : SchemaNode :=
  mk (some "number") none none none none none none none none none

/-- A node with every attribute absent (`{}` as a schema). -/
def emptyNode : SchemaNode :=
  mk none none none none none none none none none none

end SchemaNode

namespace IndexTS

/-!
The translator of `src/src/index.ts`.

```ts
function jsonSchemaToTS(schema: JsonSchema): string {
  if (!schema || typeof schema !== "object") return "unknown";
  if (schema.enum) return schema.enum.map((v) => JSON.stringify(v)).join(" | ");
  if (schema.oneOf || schema.anyOf) {
    const variants = schema.oneOf || schema.anyOf || [];
    return variants.map((v) => jsonSchemaToTS(v)).join(" | ");
  }
  if (schema.allOf) return schema.allOf.map((v) => jsonSchemaToTS(v)).join(" & ");
  switch (schema.type) {
    case "string": return "string";
    case "number": case "integer": return "number";
    case "boolean": return "boolean";
    case "null": return "null";
    case "array": return schema.items ? `(... items ...)[]` : "unknown[]";
    case "object": default: return objectSchemaToTS(schema);
  }
}
```

`objectSchemaToTS` reads only `properties`, `required` and
`additionalProperties`; its body is inlined in the final branch below (the
standalone `objectSchemaToTS` definition and the agreement lemma
`jsonSchemaToTS_default` follow after the mutual block).
-/

mutual

def jsonSchemaToTS : SchemaNode → String
  | .nonObject => "unknown"
  | .mk ty ps req it _dsc en oo ao al ap =>
    match en with
    | some es => String.intercalate " | " (es.map jsonStringify)
    | none =>
      match oo, ao with
      | some vs, _ => String.intercalate " | " (tsList vs)
      | none, some vs => String.intercalate " | " (tsList vs)
      | none, none =>
        match al with
        | some vs => String.intercalate " & " (tsList vs)
        | none =>
          if ty = some "string" then "string"
          else if ty = some "number" then "number"
          else if ty = some "integer" then "number"
          else if ty = some "boolean" then "boolean"
          else if ty = some "null" then "null"
          else if ty = some "array" then
            match it with
            | some item => "(" ++ jsonSchemaToTS item ++ ")[]"
            | none => "unknown[]"
          else
            match ps with
            | none | some [] =>
              match ap with
              | some (Sum.inl true) => "Record<string, unknown>"
              | some (Sum.inr sub) => "Record<string, " ++ jsonSchemaToTS sub ++ ">"
              | _ => "\x7b\x7d"
            | some props =>
              "\x7b " ++ String.intercalate "; " (tsFields (req.getD []) props) ++ " \x7d"

def tsList : List SchemaNode → List String
  | [] => []
  | v :: vs => jsonSchemaToTS v :: tsList vs

def tsFields (required : List String) : Props → List String
  | [] => []
  | (key, prop) :: rest =>
    (key ++ (if required.contains key then "" else "?") ++ ": " ++ jsonSchemaToTS prop)
      :: tsFields required rest

end

/--
`objectSchemaToTS` of `src/src/index.ts` lines 421-441, as a function of the
three fields it reads:

```ts
function objectSchemaToTS(schema: JsonSchema): string {
  if (!schema.properties || Object.keys(schema.properties).length === 0) {
    if (schema.additionalProperties === true) return "Record<string, unknown>";
    if (typeof schema.additionalProperties === "object")
      return `Record<string, ...>`;
    return "\x7b\x7d";
  }
  const required = new Set(schema.required || []);
  const props = Object.entries(schema.properties).map(([key, prop]) => {
    const opt = required.has(key) ? "" : "?";
    return `...key...opt...: ...`;
  });
  return `\x7b ...props.join("; ")... \x7d`;
}
```
-/
def objectSchemaToTS (ps : Option Props) (req : Option (List String))
    (ap : Option (Bool ⊕ SchemaNode)) : String :=
  match ps with
  | none | some [] =>
    match ap with
    | some (Sum.inl true) => "Record<string, unknown>"
    | some (Sum.inr sub) => "Record<string, " ++ jsonSchemaToTS sub ++ ">"
    | _ => "\x7b\x7d"
  | some props =>
    "\x7b " ++ String.intercalate "; " (tsFields (req.getD []) props) ++ " \x7d"

/-!
Branch-reduction lemmas for `jsonSchemaToTS` (each is `rfl`; they mirror the
priority cascade of the source). -/

theorem ts_nonObject : jsonSchemaToTS .nonObject = "unknown" := rfl

theorem ts_enum (ty ps req it dsc es oo ao al ap) :
    jsonSchemaToTS (.mk ty ps req it dsc (some es) oo ao al ap)
      = String.intercalate " | " (es.map jsonStringify) := rfl

theorem ts_oneOf (ty ps req it dsc vs ao al ap) :
    jsonSchemaToTS (.mk ty ps req it dsc none (some vs) ao al ap)
      = String.intercalate " | " (tsList vs) := rfl

theorem ts_anyOf (ty ps req it dsc vs al ap) :
    jsonSchemaToTS (.mk ty ps req it dsc none none (some vs) al ap)
      = String.intercalate " | " (tsList vs) := rfl

theorem ts_allOf (ty ps req it dsc vs ap) :
    jsonSchemaToTS (.mk ty ps req it dsc none none none (some vs) ap)
      = String.intercalate " & " (tsList vs) := rfl

theorem ts_typed (ty ps req it dsc ap) :
    jsonSchemaToTS (.mk ty ps req it dsc none none none none ap)
      = (if ty = some "string" then "string"
         else if ty = some "number" then "number"
         else if ty = some "integer" then "number"
         else if ty = some "boolean" then "boolean"
         else if ty = some "null" then "null"
         else if ty = some "array" then
           match it with
           | some item => "(" ++ jsonSchemaToTS item ++ ")[]"
           | none => "unknown[]"
         else objectSchemaToTS ps req ap) := by
  rcases it with _ | item <;>
    rcases ps with _ | (_ | ⟨kp, rest⟩) <;>
      rcases ap with _ | (b | sub) <;>
        first
        | rfl
        | (cases b <;> rfl)

/-- For a `type` that is none of the six primitive cases (including `type`
absent, `"object"`, and unrecognized strings), the translator defers to
`objectSchemaToTS` — the `case "object": default:` arm of the switch. -/
theorem ts_default (ty ps req it dsc ap)
    (h : ty ≠ some "string" ∧ ty ≠ some "number" ∧ ty ≠ some "integer" ∧
         ty ≠ some "boolean" ∧ ty ≠ some "null" ∧ ty ≠ some "array") :
    jsonSchemaToTS (.mk ty ps req it dsc none none none none ap)
      = objectSchemaToTS ps req ap := by
  obtain ⟨h1, h2, h3, h4, h5, h6⟩ := h
  rw [ts_typed]
  rw [if_neg h1, if_neg h2, if_neg h3, if_neg h4, if_neg h5, if_neg h6]

theorem tsList_eq_map (l : List SchemaNode) : tsList l = l.map jsonSchemaToTS := by
  induction l with
  | nil => rfl
  | cons v vs ih => simp [tsList, ih]

theorem tsFields_eq_map (required : List String) (props : Props) :
    tsFields required props = props.map (fun kp =>
      kp.1 ++ (if required.contains kp.1 then "" else "?") ++ ": " ++ jsonSchemaToTS kp.2) := by
  induction props with
  | nil => rfl
  | cons kp rest ih => cases kp; simp [tsFields, ih]

end IndexTS

namespace Part001

/-!
The translator of `src/unnamed/part_001` lines 86-164:

```ts
function jsonSchemaToTS(schema: JsonSchema, indent = 0): string {
  const spaces = "  ".repeat(indent);
  if (!schema || typeof schema !== "object") return "unknown";
  if (schema.enum) return schema.enum.map((v) => JSON.stringify(v)).join(" | ");
  if (schema.oneOf || schema.anyOf) {
    const variants = schema.oneOf || schema.anyOf || [];
    return variants.map((v) => jsonSchemaToTS(v, indent)).join(" | ");
  }
  if (schema.allOf) return schema.allOf.map((v) => jsonSchemaToTS(v, indent)).join(" & ");
  switch (schema.type) {
    case "string": return "string";
    case "number": case "integer": return "number";
    case "boolean": return "boolean";
    case "null": return "null";
    case "array": return schema.items ? `...items...[]` : "unknown[]";
    case "object":
      if (!schema.properties || Object.keys(schema.properties).length === 0) {
        if (schema.additionalProperties === true) return "Record<string, unknown>";
        if (schema.additionalProperties && typeof schema.additionalProperties === "object")
          return `Record<string, ...>`;
        return "Record<string, unknown>";
      }
      ... fields, each `${comment}${spaces}  ${key}${optional}: ${recurse(indent+1)};`,
      joined with "\n", wrapped in braces ...
    default:
      if (schema.properties) { ... same field emission ... }
      return "unknown";
  }
}
```

Note that in the `default` branch the truthiness test `if (schema.properties)`
also succeeds on a present-but-empty `properties` object, unlike the
`Object.keys(...).length === 0` test of the `"object"` branch.
-/

/-- `"  ".repeat(indent)`. -/
def spacesOf (indent : Nat) : String :=
  String.join (List.replicate indent "  ")

mutual

def jsonSchemaToTS (schema : SchemaNode) (indent : Nat) : String :=
  let spaces := spacesOf indent
  match schema with
  | .nonObject => "unknown"
  | .mk ty ps req it _dsc en oo ao al ap =>
    match en with
    | some es => String.intercalate " | " (es.map jsonStringify)
    | none =>
      match oo, ao with
      | some vs, _ => String.intercalate " | " (tsList vs indent)
      | none, some vs => String.intercalate " | " (tsList vs indent)
      | none, none =>
        match al with
        | some vs => String.intercalate " & " (tsList vs indent)
        | none =>
          if ty = some "string" then "string"
          else if ty = some "number" then "number"
          else if ty = some "integer" then "number"
          else if ty = some "boolean" then "boolean"
          else if ty = some "null" then "null"
          else if ty = some "array" then
            match it with
            | some item => jsonSchemaToTS item indent ++ "[]"
            | none => "unknown[]"
          else if ty = some "object" then
            match ps with
            | none | some [] =>
              match ap with
              | some (Sum.inl true) => "Record<string, unknown>"
              | some (Sum.inr sub) =>
                "Record<string, " ++ jsonSchemaToTS sub indent ++ ">"
              | _ => "Record<string, unknown>"
            | some props =>
              "\x7b\n" ++ String.intercalate "\n" (tsFields spaces (req.getD []) indent props)
                ++ "\n" ++ spaces ++ "\x7d"
          else
            match ps with
            | some props =>
              "\x7b\n" ++ String.intercalate "\n" (tsFields spaces (req.getD []) indent props)
                ++ "\n" ++ spaces ++ "\x7d"
            | none => "unknown"

def tsList : List SchemaNode → Nat → List String
  | [], _ => []
  | v :: vs, indent => jsonSchemaToTS v indent :: tsList vs indent

def tsFields (spaces : String) (required : List String) (indent : Nat) :
    Props → List String
  | [] => []
  | (key, prop) :: rest =>
    ((match prop.description with
      | some d => spaces ++ "  /** " ++ d ++ " */\n"
      | none => "")
      ++ spaces ++ "  " ++ key ++ (if required.contains key then "" else "?")
      ++ ": " ++ jsonSchemaToTS prop (indent + 1) ++ ";")
      :: tsFields spaces required indent rest

end

/-!
Branch-reduction lemmas (mirroring the priority cascade of the source). -/

theorem tsP_nonObject (indent : Nat) : jsonSchemaToTS .nonObject indent = "unknown" := rfl

theorem tsP_enum (ty ps req it dsc es oo ao al ap) (indent : Nat) :
    jsonSchemaToTS (.mk ty ps req it dsc (some es) oo ao al ap) indent
      = String.intercalate " | " (es.map jsonStringify) := rfl

theorem tsP_oneOf (ty ps req it dsc vs ao al ap) (indent : Nat) :
    jsonSchemaToTS (.mk ty ps req it dsc none (some vs) ao al ap) indent
      = String.intercalate " | " (tsList vs indent) := rfl

theorem tsP_anyOf (ty ps req it dsc vs al ap) (indent : Nat) :
    jsonSchemaToTS (.mk ty ps req it dsc none none (some vs) al ap) indent
      = String.intercalate " | " (tsList vs indent) := rfl

theorem tsP_allOf (ty ps req it dsc vs ap) (indent : Nat) :
    jsonSchemaToTS (.mk ty ps req it dsc none none none (some vs) ap) indent
      = String.intercalate " & " (tsList vs indent) := rfl

theorem tsP_typed (ty ps req it dsc ap) (indent : Nat) :
    jsonSchemaToTS (.mk ty ps req it dsc none none none none ap) indent
      = (if ty = some "string" then "string"
         else if ty = some "number" then "number"
         else if ty = some "integer" then "number"
         else if ty = some "boolean" then "boolean"
         else if ty = some "null" then "null"
         else if ty = some "array" then
           match it with
           | some item => jsonSchemaToTS item indent ++ "[]"
           | none => "unknown[]"
         else if ty = some "object" then
           match ps with
           | none | some [] =>
             match ap with
             | some (Sum.inl true) => "Record<string, unknown>"
             | some (Sum.inr sub) =>
               "Record<string, " ++ jsonSchemaToTS sub indent ++ ">"
             | _ => "Record<string, unknown>"
           | some props =>
             "\x7b\n"
               ++ String.intercalate "\n"
                 (tsFields (spacesOf indent) (req.getD []) indent props)
               ++ "\n" ++ spacesOf indent ++ "\x7d"
         else
           match ps with
           | some props =>
             "\x7b\n"
               ++ String.intercalate "\n"
                 (tsFields (spacesOf indent) (req.getD []) indent props)
               ++ "\n" ++ spacesOf indent ++ "\x7d"
           | none => "unknown") := by
  rcases it with _ | item <;>
    rcases ps with _ | (_ | ⟨kp, rest⟩) <;>
      rcases ap with _ | (b | sub) <;>
        first
        | rfl
        | (cases b <;> rfl)

theorem tsListP_eq_map (l : List SchemaNode) (indent : Nat) :
    tsList l indent = l.map (fun v => jsonSchemaToTS v indent) := by
  induction l with
  | nil => rfl
  | cons v vs ih => simp [tsList, ih]

theorem tsFieldsP_eq_map (spaces : String) (required : List String) (indent : Nat)
    (props : Props) :
    tsFields spaces required indent props = props.map (fun kp =>
      (match kp.2.description with
        | some d => spaces ++ "  /** " ++ d ++ " */\n"
        | none => "")
        ++ spaces ++ "  " ++ kp.1 ++ (if required.contains kp.1 then "" else "?")
        ++ ": " ++ jsonSchemaToTS kp.2 (indent + 1) ++ ";") := by
  induction props with
  | nil => rfl
  | cons kp rest ih => cases kp; simp [tsFields, ih]

end Part001

example : IndexTS.jsonSchemaToTS SchemaNode.strNode = "string" := by decide

example : IndexTS.jsonSchemaToTS (.mk (some "object")
    (some [("x", SchemaNode.strNode), ("y", SchemaNode.numNode)]) (some ["x"])
    none none none none none none none)
    = "\x7b x: string; y?: number \x7d" := by decide

example : IndexTS.jsonSchemaToTS
    (.mk none none none none none (some [.str "a", .str "b", .num 3]) none none none none)
    = "\"a\" | \"b\" | 3" := by decide

example : IndexTS.jsonSchemaToTS SchemaNode.emptyNode = "\x7b\x7d" := by decide

example : Part001.jsonSchemaToTS SchemaNode.emptyNode 0 = "unknown" := by decide

example : Part001.jsonSchemaToTS
    (.mk (some "object") (some [("x", SchemaNode.strNode)]) (some ["x"])
      none none none none none none none) 0
    = "\x7b\n  x: string;\n\x7d" := by decide

example : Part001.jsonSchemaToTS
    (.mk (some "array") none none
      (some (.mk none none none none none none
        (some [SchemaNode.strNode, SchemaNode.numNode]) none none none))
      none none none none none none) 0
    = "string | number[]" := by decide

/-!
## Identifier normalizer

`src/unnamed/part_001` lines 60-69 (identical in the other scripts):

```ts
function toPascalCase(str) {
  return str.split(/[-_\s]/)
    .map((word) => word.charAt(0).toUpperCase() + word.slice(1)).join("");
}
function toValidIdentifier(name) {
  return name.replace(/[^a-zA-Z0-9_]/g, "_");
}
```
-/

/-- Membership in the character class `[a-zA-Z0-9_]`. -/
def isIdentChar (c : Char) : Bool :=
  ('a' ≤ c && c ≤ 'z') || ('A' ≤ c && c ≤ 'Z') || ('0' ≤ c && c ≤ '9') || c = '_'

/-- `name.replace(/[^a-zA-Z0-9_]/g, "_")`: every character outside
`[a-zA-Z0-9_]` becomes `_`. -/
def toValidIdentifier (name : String) : String :=
  String.mk (name.data.map (fun c => if isIdentChar c then c else '_'))

/-- `String.prototype.split` on a single-character separator class: split at
every matching character, keeping empty fragments. -/
def splitChars (p : Char → Bool) : List Char → List (List Char)
  | [] => [[]]
  | c :: cs =>
    if p c then [] :: splitChars p cs
    else
      match splitChars p cs with
      | [] => [[c]]
      | w :: ws => (c :: w) :: ws

/-- `word.charAt(0).toUpperCase() + word.slice(1)` (empty word stays empty). -/
def capitalizeWord : List Char → String
  | [] => ""
  | c :: rest => String.mk (c.toUpper :: rest)

/-- `toPascalCase`: split on `-`, `_`, whitespace; capitalize each fragment;
concatenate. -/
def toPascalCase (str : String) : String :=
  String.join ((splitChars (fun c => c = '-' || c = '_' || c.isWhitespace) str.data).map
    capitalizeWord)

example : toValidIdentifier "do-thing" = "do_thing" := by decide
example : toPascalCase "do_thing" = "DoThing" := by decide

/-!
## The `fixZodSchema` post-processing pass

`src/src/index.ts` lines 74-82:

```ts
function fixZodSchema(zodString: string): string {
  return zodString.replace(
    /(\.(string|number|boolean|date|bigint|symbol)\(\))((?:\.[a-z]+\([^)]*\))*)\.default\(null\)/g,
    "$1.nullable()$3.default(null)"
  );
}
```

The global replacement is embedded as a left-to-right scanner.  At each
position it attempts the pattern: group 1 is the literal `.<prim>()` for one
of the six primitive tokens; group 3 is a maximal run of modifier-call units
`\.[a-z]+\([^)]*\)`; after backtracking over the run, the literal
`.default(null)` must follow.  Each unit matcher is deterministic (`[a-z]+`
is a maximal lower-case run that must be followed by `(`, and `[^)]*` runs to
the first `)`), so the regex engine's greedy backtracking is exactly "collect
maximal units, then drop units from the end until `.default(null)` fits" —
implemented by trying the unit-run states longest-first.  On a match the
replacement `$1.nullable()$3.default(null)` is emitted and scanning resumes
after the matched text; otherwise one character is copied and scanning
advances.
-/

/-- The six primitive tokens of the regex alternation, in source order. -/
def zodPrimTokens : List String :=
  ["string", "number", "boolean", "date", "bigint", "symbol"]

/-- Match a literal: if `lit` starts `s`, return the remainder. -/
def dropLit : List Char → List Char → Option (List Char)
  | [], s => some s
  | _ :: _, [] => none
  | c :: cs, d :: ds => if c = d then dropLit cs ds else none

/-- `[a-z]`. -/
def lowerAlpha (c : Char) : Bool := 'a' ≤ c && c ≤ 'z'

/-- Match one modifier-call unit `\.[a-z]+\([^)]*\)`; returns the matched text
and the remainder.  (`[a-z]+` is a maximal lower-case run that must be
followed by `(`; `[^)]*` runs to the first `)`, which must exist.) -/
def matchUnit : List Char → Option (List Char × List Char)
  | [] => none
  | c :: s =>
    if c = '.' then
      let name := s.takeWhile lowerAlpha
      if name.isEmpty then none
      else
        match s.dropWhile lowerAlpha with
        | [] => none
        | c1 :: s2 =>
          if c1 = '(' then
            let arg := s2.takeWhile (fun x => x ≠ ')')
            match s2.dropWhile (fun x => x ≠ ')') with
            | [] => none
            | c2 :: s3 =>
              if c2 = ')' then some ('.' :: name ++ '(' :: arg ++ [')'], s3)
              else none
          else none
    else none

/-- All states of the greedy unit run `(?:\.[a-z]+\([^)]*\))*`:
`(consumed, remainder)` after 0, 1, 2, … units, in that order.  `fuel` bounds
the number of units; each unit consumes at least one character, so
`fuel = s.length` is always enough. -/
def unitStates (fuel : Nat) (s : List Char) : List (List Char × List Char) :=
  match fuel with
  | 0 => [([], s)]
  | fuel + 1 =>
    ([], s) ::
      match matchUnit s with
      | none => []
      | some (u, r) => (unitStates fuel r).map (fun cr => (u ++ cr.1, cr.2))

/-- The literal `.default(null)`. -/
def defaultNullLit : List Char := ".default(null)".data

/-- The literal `.nullable()` inserted by the replacement. -/
def nullableLit : List Char := ".nullable()".data

/-- Group 1 of the regex with primitive token `p`: the literal `.<p>()`. -/
def zodPrimLit (p : String) : List Char := '.' :: p.data ++ ['(', ')']

/-- Try the whole pattern with a fixed primitive token `p` at the start of
`s`.  On success, return the replacement text `$1.nullable()$3.default(null)`
and the remainder of `s` after the match. -/
def tryPrim (p : String) (s : List Char) : Option (List Char × List Char) :=
  match dropLit (zodPrimLit p) s with
  | none => none
  | some s1 =>
    ((unitStates s1.length s1).reverse).findSome? (fun mr =>
      match dropLit defaultNullLit mr.2 with
      | some r2 =>
        some (zodPrimLit p ++ nullableLit ++ mr.1 ++ defaultNullLit, r2)
      | none => none)

/-- Try the pattern at the start of `s`, over the alternation of the six
primitive tokens (at most one can match, since the token must be followed by
`(`). -/
def matchZodAt (s : List Char) : Option (List Char × List Char) :=
  zodPrimTokens.findSome? (fun p => tryPrim p s)

/-- The scanning loop of the global replacement.  `fuel` bounds the number of
steps; every step consumes at least one character, so `fuel = s.length` is
always enough, and exhausted fuel (never reached from `fixZodSchema`) copies
the remainder verbatim. -/
def fixZodLoop : Nat → List Char → List Char
  | 0, s => s
  | _ + 1, [] => []
  | fuel + 1, c :: cs =>
    match matchZodAt (c :: cs) with
    | some (rep, rest) => rep ++ fixZodLoop fuel rest
    | none => c :: fixZodLoop fuel cs

/-- `fixZodSchema` of `src/src/index.ts` lines 74-82. -/
def fixZodSchema (zodString : String) : String :=
  String.mk (fixZodLoop zodString.data.length zodString.data)

/-- `true` when the pattern matches at no position of `s` (the regex search
fails). -/
def noZodOcc : List Char → Bool
  | [] => true
  | c :: cs => (matchZodAt (c :: cs)).isNone && noZodOcc cs

/-- A well-formed modifier-call unit: text matched by `\.[a-z]+\([^)]*\)` —
a dot, a non-empty lower-case name, and a parenthesized argument containing
no `)`. -/
def IsModUnit (u : List Char) : Prop :=
  ∃ name arg, name ≠ [] ∧ (∀ c ∈ name, lowerAlpha c = true) ∧ ')' ∉ arg
    ∧ u = '.' :: name ++ '(' :: arg ++ [')']

/-- A run of modifier-call units: text matched by the regex's group 3,
`(?:\.[a-z]+\([^)]*\))*`. -/
inductive IsModRun : List Char → Prop where
  | nil : IsModRun []
  | cons (u rest) (hu : IsModUnit u) (hrest : IsModRun rest) : IsModRun (u ++ rest)

example : fixZodSchema "z.object(\x7b a: z.string().default(null) \x7d)"
    = "z.object(\x7b a: z.string().nullable().default(null) \x7d)" := by decide

example : fixZodSchema "z.string().describe(\"x\").default(null)"
    = "z.string().nullable().describe(\"x\").default(null)" := by decide

example : fixZodSchema "z.number().min(0).max(9).default(null)"
    = "z.number().nullable().min(0).max(9).default(null)" := by decide

example : fixZodSchema "z.string().default(\"a\")" = "z.string().default(\"a\")" := by
  decide

namespace IndexTS

/-!
## Per-tool schema conversion in `main`

`src/src/index.ts` lines 156-162:

```ts
let zodSchemaString = "z.any()";
try {
  zodSchemaString = fixZodSchema(jsonSchemaToZod(inputSchema).toString());
} catch (err) {
  console.warn(`...Failed to convert schema for tool: ...`);
  console.warn(`   Using z.any() as fallback`);
}
```

The external library call `jsonSchemaToZod(inputSchema).toString()` is
abstracted as an `Except String String` input: `.ok z` when the call returns
the string `z`, `.error e` when it throws.  The result pairs the schema
initializer string with a flag recording whether the fallback warning was
logged.
-/

def emitToolSchema (conv : Except String String) : String × Bool :=
  match conv with
  | .ok zodStr => (fixZodSchema zodStr, false)
  | .error _ => ("z.any()", true)

/-- The `tools.forEach` loop of `main`, restricted to the per-tool input
schema initializers: one `(name, initializer-string, warned)` triple per tool,
in tool order. -/
def generateSchemas (tools : List (String × Except String String)) :
    List (String × String × Bool) :=
  tools.map (fun t => (t.1, emitToolSchema t.2))

end IndexTS

namespace Part001

/-!
## Declaration emission in `main`

`src/unnamed/part_001` lines 230-246: for each tool,
`typeName = toPascalCase(toValidIdentifier(name)) + "Params"` and the line
`export type ${typeName} = ${jsonSchemaToTS(inputSchema)};` is pushed.  No
collision check is performed on `typeName`.
-/

def genToolDecls (tools : List (String × SchemaNode)) : List (String × String) :=
  tools.map (fun t =>
    let typeName := toPascalCase (toValidIdentifier t.1) ++ "Params"
    (typeName, "export type " ++ typeName ++ " = " ++ jsonSchemaToTS t.2 0 ++ ";"))

end Part001

/-!
## Helper lemmas: non-emptiness of strings
-/

theorem String.ne_empty_of_length_pos {s : String} (h : 0 < s.length) : s ≠ "" := by
  intro he
  subst he
  simp at h

theorem String.length_pos_append_left (s t : String) (h : 0 < s.length) :
    0 < (s ++ t).length := by
  rw [String.length_append]
  omega

theorem String.intercalate_go_length (sep : String) :
    ∀ (l : List String) (acc : String), acc.length ≤ (String.intercalate.go acc sep l).length := by
  intro l
  induction l with
  | nil => intro acc; simp [String.intercalate.go]
  | cons a as ih =>
    intro acc
    have h := ih (acc ++ sep ++ a)
    simp only [String.intercalate.go]
    calc acc.length ≤ (acc ++ sep ++ a).length := by
          simp [String.length_append]
          omega
      _ ≤ _ := h

theorem String.length_pos_of_ne_empty {s : String} (h : s ≠ "") : 0 < s.length := by
  rcases Nat.eq_zero_or_pos s.length with h0 | h0
  · exfalso
    apply h
    cases s with
    | mk data =>
      have hd : data = [] := by
        have : data.length = 0 := h0
        exact List.length_eq_zero.mp this
      subst hd
      rfl
  · exact h0

theorem String.append_ne_empty_left {a : String} (b : String) (h : a ≠ "") :
    a ++ b ≠ "" := by
  apply String.ne_empty_of_length_pos
  have := String.length_pos_of_ne_empty h
  rw [String.length_append]
  omega

theorem String.append_ne_empty_right (a : String) {b : String} (h : b ≠ "") :
    a ++ b ≠ "" := by
  apply String.ne_empty_of_length_pos
  have := String.length_pos_of_ne_empty h
  rw [String.length_append]
  omega

/-- `join(sep)` on a list whose first element is non-empty is non-empty. -/
theorem String.intercalate_ne_empty (sep : String) (x : String) (xs : List String)
    (hx : x ≠ "") : String.intercalate sep (x :: xs) ≠ "" := by
  apply String.ne_empty_of_length_pos
  have h1 := String.length_pos_of_ne_empty hx
  have h2 := String.intercalate_go_length sep xs x
  calc 0 < x.length := h1
    _ ≤ _ := h2

/-!
## Helper lemmas: `jsonStringify` never returns the empty string
-/

theorem Nat.toDigitsCore_length_le (b : Nat) :
    ∀ (fuel n : Nat) (ds : List Char), ds.length ≤ (Nat.toDigitsCore b fuel n ds).length := by
  intro fuel
  induction fuel with
  | zero => intro n ds; simp [Nat.toDigitsCore]
  | succ fuel ih =>
    intro n ds
    simp only [Nat.toDigitsCore]
    split
    · simp
    · have := ih (n / b) (Nat.digitChar (n % b) :: ds)
      simp at this
      omega

theorem Nat.toDigitsCore_length_pos (b fuel n : Nat) (ds : List Char) (h : 0 < fuel) :
    0 < (Nat.toDigitsCore b fuel n ds).length := by
  cases fuel with
  | zero => omega
  | succ fuel =>
    simp only [Nat.toDigitsCore]
    split
    · simp
    · have := Nat.toDigitsCore_length_le b fuel (n / b) (Nat.digitChar (n % b) :: ds)
      simp at this
      omega

theorem Nat.repr_ne_empty (n : Nat) : Nat.repr n ≠ "" := by
  apply String.ne_empty_of_length_pos
  show 0 < (Nat.toDigits 10 n).asString.length
  have : (Nat.toDigits 10 n).asString.length = (Nat.toDigits 10 n).length := rfl
  rw [this]
  exact Nat.toDigitsCore_length_pos 10 (n + 1) n [] (Nat.succ_pos n)

theorem Int.toString_ne_empty (n : Int) : toString n ≠ "" := by
  cases n with
  | ofNat m => exact Nat.repr_ne_empty m
  | negSucc m =>
    show "-" ++ toString (m + 1) ≠ ""
    exact String.append_ne_empty_left _ (show ("-" : String) ≠ "" by decide)

theorem jsonStringify_ne_empty (v : JsonValue) : jsonStringify v ≠ "" := by
  cases v with
  | null => decide
  | bool b => cases b <;> decide
  | num n => exact Int.toString_ne_empty n
  | str s =>
    exact String.append_ne_empty_left _
      (String.append_ne_empty_left _ (show ("\"" : String) ≠ "" by decide))

/-!
## Well-formedness: all keyword lists non-empty

In JavaScript an empty array is truthy, so a present-but-empty
`enum`/`oneOf`/`anyOf`/`allOf` list still selects the corresponding rule and
`[].map(...).join(...)` yields the empty string.  `goodNode` says no such
empty list occurs anywhere in the node. -/

mutual

/-- Every `enum`/`oneOf`/`anyOf`/`allOf` list present anywhere in the node is
non-empty. -/
inductive GoodNode : SchemaNode → Prop where
  | nonObject : GoodNode SchemaNode.nonObject
  | mk (ty ps req it dsc en oo ao al ap)
      (hen : ∀ es, en = some es → es ≠ [])
      (hooNe : ∀ vs, oo = some vs → vs ≠ [])
      (hoo : ∀ vs, oo = some vs → GoodList vs)
      (haoNe : ∀ vs, ao = some vs → vs ≠ [])
      (hao : ∀ vs, ao = some vs → GoodList vs)
      (halNe : ∀ vs, al = some vs → vs ≠ [])
      (hal : ∀ vs, al = some vs → GoodList vs)
      (hit : ∀ sub, it = some sub → GoodNode sub)
      (hap : ∀ sub, ap = some (Sum.inr sub) → GoodNode sub)
      (hps : ∀ props, ps = some props → GoodProps props) :
      GoodNode (SchemaNode.mk ty ps req it dsc en oo ao al ap)

inductive GoodList : List SchemaNode → Prop where
  | nil : GoodList []
  | cons (v vs) (hv : GoodNode v) (hvs : GoodList vs) : GoodList (v :: vs)

inductive GoodProps : Props → Prop where
  | nil : GoodProps []
  | cons (k p rest) (hp : GoodNode p) (hrest : GoodProps rest) :
      GoodProps ((k, p) :: rest)

end

/-- A node whose keyword fields are all absent is good. -/
theorem GoodNode.of_plain (ty req dsc) :
    GoodNode (SchemaNode.mk ty none req none dsc none none none none none) :=
  GoodNode.mk ty none req none dsc none none none none none
    (fun _ h => Option.noConfusion h) (fun _ h => Option.noConfusion h)
    (fun _ h => Option.noConfusion h) (fun _ h => Option.noConfusion h)
    (fun _ h => Option.noConfusion h) (fun _ h => Option.noConfusion h)
    (fun _ h => Option.noConfusion h) (fun _ h => Option.noConfusion h)
    (fun _ h => Option.noConfusion h) (fun _ h => Option.noConfusion h)

theorem IndexTS.jsonSchemaToTS_ne_empty_aux :
    ∀ (n : Nat) (s : SchemaNode), sizeOf s = n → GoodNode s →
      IndexTS.jsonSchemaToTS s ≠ "" := by
  intro n
  induction n using Nat.strong_induction_on with
  | _ n ih =>
    intro s hsz h
    match s with
    | .nonObject =>
      rw [IndexTS.ts_nonObject]
      decide
    | .mk ty ps req it dsc en oo ao al ap =>
      subst hsz
      cases h with
      | mk _ _ _ _ _ _ _ _ _ _ hen hooNe hoo haoNe hao halNe hal hit hap hps =>
      cases en with
      | some es =>
        cases es with
        | nil => exact absurd rfl (hen [] rfl)
        | cons v rest =>
          rw [IndexTS.ts_enum, List.map]
          exact String.intercalate_ne_empty _ _ _ (jsonStringify_ne_empty v)
      | none =>
        cases oo with
        | some vs =>
          cases vs with
          | nil => exact absurd rfl (hooNe [] rfl)
          | cons v rest =>
            rw [IndexTS.ts_oneOf, IndexTS.tsList]
            apply String.intercalate_ne_empty
            apply ih (sizeOf v) ?_ v rfl ?_
            · simp
              omega
            · cases hoo _ rfl with
              | cons _ _ hv _ => exact hv
        | none =>
          cases ao with
          | some vs =>
            cases vs with
            | nil => exact absurd rfl (haoNe [] rfl)
            | cons v rest =>
              rw [IndexTS.ts_anyOf, IndexTS.tsList]
              apply String.intercalate_ne_empty
              apply ih (sizeOf v) ?_ v rfl ?_
              · simp
                omega
              · cases hao _ rfl with
                | cons _ _ hv _ => exact hv
          | none =>
            cases al with
            | some vs =>
              cases vs with
              | nil => exact absurd rfl (halNe [] rfl)
              | cons v rest =>
                rw [IndexTS.ts_allOf, IndexTS.tsList]
                apply String.intercalate_ne_empty
                apply ih (sizeOf v) ?_ v rfl ?_
                · simp
                  omega
                · cases hal _ rfl with
                  | cons _ _ hv _ => exact hv
            | none =>
              rw [IndexTS.ts_typed]
              split
              · decide
              split
              · decide
              split
              · decide
              split
              · decide
              split
              · decide
              split
              · cases it with
                | some item =>
                  apply String.append_ne_empty_left
                  exact String.append_ne_empty_left _
                    (show ("(" : String) ≠ "" by decide)
                | none => decide
              · rcases ps with _ | (_ | ⟨kp, rest⟩) <;>
                  rcases ap with _ | (b | sub) <;>
                    first
                    | exact (show ("\x7b\x7d" : String) ≠ "" by decide)
                    | (cases b
                        <;> first
                        | exact (show ("\x7b\x7d" : String) ≠ "" by decide)
                        | exact (show ("Record<string, unknown>" : String) ≠ "" by
                            decide))
                    | exact String.append_ne_empty_left _
                        (String.append_ne_empty_left _
                          (show ("Record<string, " : String) ≠ "" by decide))
                    | exact String.append_ne_empty_left _
                        (String.append_ne_empty_left _
                          (show ("\x7b " : String) ≠ "" by decide))

theorem Part001.tsP_ne_empty_aux :
    ∀ (n : Nat) (s : SchemaNode), sizeOf s = n → GoodNode s →
      ∀ (indent : Nat), Part001.jsonSchemaToTS s indent ≠ "" := by
  intro n
  induction n using Nat.strong_induction_on with
  | _ n ih =>
    intro s hsz h indent
    match s with
    | .nonObject =>
      rw [Part001.tsP_nonObject]
      decide
    | .mk ty ps req it dsc en oo ao al ap =>
      subst hsz
      cases h with
      | mk _ _ _ _ _ _ _ _ _ _ hen hooNe hoo haoNe hao halNe hal hit hap hps =>
      cases en with
      | some es =>
        cases es with
        | nil => exact absurd rfl (hen [] rfl)
        | cons v rest =>
          rw [Part001.tsP_enum, List.map]
          exact String.intercalate_ne_empty _ _ _ (jsonStringify_ne_empty v)
      | none =>
        cases oo with
        | some vs =>
          cases vs with
          | nil => exact absurd rfl (hooNe [] rfl)
          | cons v rest =>
            rw [Part001.tsP_oneOf, Part001.tsList]
            apply String.intercalate_ne_empty
            apply ih (sizeOf v) ?_ v rfl ?_ indent
            · simp
              omega
            · cases hoo _ rfl with
              | cons _ _ hv _ => exact hv
        | none =>
          cases ao with
          | some vs =>
            cases vs with
            | nil => exact absurd rfl (haoNe [] rfl)
            | cons v rest =>
              rw [Part001.tsP_anyOf, Part001.tsList]
              apply String.intercalate_ne_empty
              apply ih (sizeOf v) ?_ v rfl ?_ indent
              · simp
                omega
              · cases hao _ rfl with
                | cons _ _ hv _ => exact hv
          | none =>
            cases al with
            | some vs =>
              cases vs with
              | nil => exact absurd rfl (halNe [] rfl)
              | cons v rest =>
                rw [Part001.tsP_allOf, Part001.tsList]
                apply String.intercalate_ne_empty
                apply ih (sizeOf v) ?_ v rfl ?_ indent
                · simp
                  omega
                · cases hal _ rfl with
                  | cons _ _ hv _ => exact hv
            | none =>
              rw [Part001.tsP_typed]
              split
              · decide
              split
              · decide
              split
              · decide
              split
              · decide
              split
              · decide
              split
              · cases it with
                | some item =>
                  exact String.append_ne_empty_right _
                    (show ("[]" : String) ≠ "" by decide)
                | none => exact (show ("unknown[]" : String) ≠ "" by decide)
              split
              · rcases ps with _ | (_ | ⟨kp, rest⟩) <;>
                  rcases ap with _ | (b | sub) <;>
                    first
                    | exact (show ("Record<string, unknown>" : String) ≠ "" by decide)
                    | (cases b <;>
                        exact (show ("Record<string, unknown>" : String) ≠ "" by
                          decide))
                    | exact String.append_ne_empty_left _
                        (String.append_ne_empty_left _
                          (show ("Record<string, " : String) ≠ "" by decide))
                    | exact String.append_ne_empty_left _
                        (String.append_ne_empty_left _
                          (String.append_ne_empty_left _
                            (String.append_ne_empty_left _
                              (show ("\x7b\n" : String) ≠ "" by decide))))
              · rcases ps with _ | props
                · exact (show ("unknown" : String) ≠ "" by decide)
                · exact String.append_ne_empty_left _
                    (String.append_ne_empty_left _
                      (String.append_ne_empty_left _
                        (String.append_ne_empty_left _
                          (show ("\x7b\n" : String) ≠ "" by decide))))

/-!
## Claim C1 — totality and non-emptiness of the translator

The claim asserts a non-empty result for *every* node, including one with an
empty `enum` (or `oneOf`/`anyOf`/`allOf`) list.  In JavaScript an empty array
is truthy, so `{enum: []}` selects the enum rule and `[].map(...).join(" | ")`
is the empty string: the "non-empty" half fails on such degenerate nodes.
The translators never raise (they are total functions), and the result is
non-empty whenever no present keyword list is empty. -/

/-- C1 counterexample: on the node `{enum: []}` both translator variants
return the empty string, refuting "returns a non-empty string" for degenerate
nodes with an empty `enum` list (and likewise the low-priority keyword lists
never make up for it). -/
theorem C1_counterexample :
    IndexTS.jsonSchemaToTS
        (.mk none none none none none (some []) none none none none) = ""
    ∧ Part001.jsonSchemaToTS
        (.mk none none none none none (some []) none none none none) 0 = ""
    ∧ IndexTS.jsonSchemaToTS
        (.mk none none none none none none (some []) none none none) = "" := by
  refine ⟨by decide, by decide, by decide⟩

/-- C1 (amended): both translator variants are total Lean functions (they
never raise), and they return a non-empty string for every `SchemaNode` in
which every present `enum`/`oneOf`/`anyOf`/`allOf` list is non-empty
(`GoodNode`); the unrestricted non-emptiness of the original claim fails only
on nodes containing a present-but-empty keyword list. -/
theorem C1_totality_amended (s : SchemaNode) (h : GoodNode s) :
    IndexTS.jsonSchemaToTS s ≠ "" ∧ ∀ indent, Part001.jsonSchemaToTS s indent ≠ "" :=
  ⟨IndexTS.jsonSchemaToTS_ne_empty_aux (sizeOf s) s rfl h,
   fun indent => Part001.tsP_ne_empty_aux (sizeOf s) s rfl h indent⟩

/-- C1 witness: the amended theorem applied to the concrete node
`{type: "string"}`. -/
theorem C1_totality_amended_witness :
    IndexTS.jsonSchemaToTS SchemaNode.strNode ≠ ""
    ∧ Part001.jsonSchemaToTS SchemaNode.strNode 0 ≠ "" :=
  ⟨(C1_totality_amended SchemaNode.strNode (GoodNode.of_plain _ _ _)).1,
   (C1_totality_amended SchemaNode.strNode (GoodNode.of_plain _ _ _)).2 0⟩

/-!
## Claim C2 — enum precedence and literal unions
-/

/-- C2: for a node with a present, non-empty `enum`, both translator variants
return exactly the `JSON.stringify` forms of the enum elements joined by
`" | "`, in input order with duplicates kept, regardless of every other
keyword on the node (`type`, `properties`, `oneOf`, `anyOf`, `allOf`,
`items`, `additionalProperties`); in particular `{enum:["a","b",3]}`
translates to `"a" | "b" | 3`. -/
theorem C2_enum_literal_union :
    (∀ ty ps req it dsc es oo ao al ap, es ≠ [] →
      IndexTS.jsonSchemaToTS (.mk ty ps req it dsc (some es) oo ao al ap)
          = String.intercalate " | " (es.map jsonStringify)
        ∧ ∀ indent,
          Part001.jsonSchemaToTS (.mk ty ps req it dsc (some es) oo ao al ap) indent
            = String.intercalate " | " (es.map jsonStringify))
    ∧ IndexTS.jsonSchemaToTS
        (.mk none none none none none
          (some [.str "a", .str "b", .num 3]) none none none none)
        = "\"a\" | \"b\" | 3"
    ∧ Part001.jsonSchemaToTS
        (.mk none none none none none
          (some [.str "a", .str "b", .num 3]) none none none none) 0
        = "\"a\" | \"b\" | 3" := by
  refine ⟨fun ty ps req it dsc es oo ao al ap _ => ⟨?_, fun indent => ?_⟩,
    by decide, by decide⟩
  · exact IndexTS.ts_enum ty ps req it dsc es oo ao al ap
  · exact Part001.tsP_enum ty ps req it dsc es oo ao al ap indent

/-- C2 witness: the universally quantified part applied to the concrete
singleton enum `{enum: [3], type: "string"}` (the `type` keyword is ignored),
with the hypothesis `[3] ≠ []` discharged explicitly. -/
theorem C2_enum_literal_union_witness :
    IndexTS.jsonSchemaToTS
        (.mk (some "string") none none none none (some [.num 3]) none none none none)
      = String.intercalate " | " ([JsonValue.num 3].map jsonStringify)
    ∧ String.intercalate " | " ([JsonValue.num 3].map jsonStringify) = "3" :=
  ⟨(C2_enum_literal_union.1 (some "string") none none none none [.num 3]
      none none none none (List.cons_ne_nil _ _)).1,
   by decide⟩

/-!
## Claim C3 — object-shape field order and optional markers
-/

/-- C3: for the object-shape rule of `src/src/index.ts` with non-empty
`properties`, the emitted fields follow exactly the insertion order of
`properties`; a key listed in `required` carries no marker and a key not
listed carries `?`; and the scenario
`{type:"object", properties:{x:string, y:number}, required:["x"]}`
renders as `{ x: string; y?: number }`. -/
theorem C3_object_fields :
    (∀ (props : Props) req ap, props ≠ [] →
      IndexTS.objectSchemaToTS (some props) req ap
        = "\x7b " ++ String.intercalate "; " (props.map (fun kp =>
            kp.1 ++ (if (req.getD []).contains kp.1 then "" else "?")
              ++ ": " ++ IndexTS.jsonSchemaToTS kp.2)) ++ " \x7d")
    ∧ IndexTS.jsonSchemaToTS
        (.mk (some "object")
          (some [("x", SchemaNode.strNode), ("y", SchemaNode.numNode)])
          (some ["x"]) none none none none none none none)
        = "\x7b x: string; y?: number \x7d" := by
  refine ⟨fun props req ap h => ?_, by decide⟩
  cases props with
  | nil => exact absurd rfl h
  | cons kp rest =>
    rw [show IndexTS.objectSchemaToTS (some (kp :: rest)) req ap
        = "\x7b " ++ String.intercalate "; "
            (IndexTS.tsFields (req.getD []) (kp :: rest)) ++ " \x7d" from rfl]
    rw [IndexTS.tsFields_eq_map]

/-- C3 witness: the universally quantified part applied to the concrete
property list `[("x", string-node)]` with `required` absent, so the single
field carries the optional marker. -/
theorem C3_object_fields_witness :
    IndexTS.objectSchemaToTS (some [("x", SchemaNode.strNode)]) none none
      = "\x7b " ++ String.intercalate "; "
          ([("x", SchemaNode.strNode)].map (fun kp =>
            kp.1 ++ (if (Option.getD (none : Option (List String)) []).contains kp.1
              then "" else "?") ++ ": " ++ IndexTS.jsonSchemaToTS kp.2)) ++ " \x7d"
    ∧ IndexTS.objectSchemaToTS (some [("x", SchemaNode.strNode)]) none none
      = "\x7b x?: string \x7d" :=
  ⟨C3_object_fields.1 [("x", SchemaNode.strNode)] none none (List.cons_ne_nil _ _),
   by decide⟩

/-!
## Claim C4 — fallback for a type-less, property-less node

The two translator variants disagree here, and neither matches the claim in
full.  In `src/src/index.ts` the `additionalProperties` cases hold but the
"absent" case yields the empty-object literal `\x7b\x7d`, not `unknown`; in
`src/unnamed/part_001` the `default:` switch arm never consults
`additionalProperties` at all and always yields `unknown` for such nodes. -/

/-- C4 counterexample: the `src/src/index.ts` translator maps the all-absent
node `{}` to the empty-object literal rather than the universal unknown type,
and the `src/unnamed/part_001` translator maps `{additionalProperties: true}`
(with `type` and `properties` absent) to `unknown` rather than to an open
string-keyed map. -/
theorem C4_counterexample :
    IndexTS.jsonSchemaToTS SchemaNode.emptyNode = "\x7b\x7d"
    ∧ ("\x7b\x7d" : String) ≠ "unknown"
    ∧ Part001.jsonSchemaToTS
        (.mk none none none none none none none none none (some (Sum.inl true))) 0
        = "unknown"
    ∧ ("unknown" : String) ≠ "Record<string, unknown>" := by
  refine ⟨by decide, by decide, by decide, by decide⟩

/-- C4 (amended): for a node with no `enum`/`oneOf`/`anyOf`/`allOf`, `type`
absent and `properties` absent — the `src/src/index.ts` translator returns
`Record<string, unknown>` when `additionalProperties` is `true`, a
`Record<string, ·>` of the translated node when `additionalProperties` is a
SchemaNode, and the empty-object literal `\x7b\x7d` (not `unknown`) when it is
absent; the `src/unnamed/part_001` translator returns `unknown` for every
such node, ignoring `additionalProperties`. -/
theorem C4_fallback_amended (req : Option (List String)) (it : Option SchemaNode)
    (dsc : Option String) :
    (IndexTS.jsonSchemaToTS
        (.mk none none req it dsc none none none none (some (Sum.inl true)))
        = "Record<string, unknown>")
    ∧ (∀ sub, IndexTS.jsonSchemaToTS
        (.mk none none req it dsc none none none none (some (Sum.inr sub)))
        = "Record<string, " ++ IndexTS.jsonSchemaToTS sub ++ ">")
    ∧ (IndexTS.jsonSchemaToTS (.mk none none req it dsc none none none none none)
        = "\x7b\x7d")
    ∧ (∀ ap indent, Part001.jsonSchemaToTS
        (.mk none none req it dsc none none none none ap) indent = "unknown") := by
  rcases it with _ | item <;>
    (refine ⟨rfl, fun sub => rfl, rfl, fun ap indent => ?_⟩
     rw [Part001.tsP_typed]
     rcases ap with _ | (b | sub) <;> rfl)

/-- C4 witness: the amended theorem applied at `required`/`items`/
`description` all absent, with the `additionalProperties`-node clause
instantiated at the string node and evaluated. -/
theorem C4_fallback_amended_witness :
    IndexTS.jsonSchemaToTS
        (.mk none none none none none none none none none
          (some (Sum.inr SchemaNode.strNode)))
      = "Record<string, " ++ IndexTS.jsonSchemaToTS SchemaNode.strNode ++ ">"
    ∧ "Record<string, " ++ IndexTS.jsonSchemaToTS SchemaNode.strNode ++ ">"
      = "Record<string, string>" :=
  ⟨(C4_fallback_amended none none none).2.1 SchemaNode.strNode, by decide⟩

/-!
## Claim C5 — oneOf/anyOf unions and their precedence

The claim guards only against a *non-empty* `enum`; but a present-and-empty
`enum` list is truthy in JavaScript, so it still wins over `oneOf`/`anyOf`
and produces the empty string.  With `enum` absent the claim holds, including
`oneOf` precedence over `anyOf`. -/

/-- C5 counterexample: on `{enum: [], oneOf: [{type:"string"}]}` — a node
without a non-empty `enum` and with `oneOf` present — the translator returns
`""` (the enum rule still fires), not the union of the translated variants,
which would be `string`. -/
theorem C5_counterexample :
    IndexTS.jsonSchemaToTS
        (.mk none none none none none (some [])
          (some [SchemaNode.strNode]) none none none) = ""
    ∧ IndexTS.jsonSchemaToTS SchemaNode.strNode = "string"
    ∧ ("" : String) ≠ "string" := by
  refine ⟨by decide, by decide, by decide⟩

/-- C5 (amended): for a node with `enum` *absent* (rather than merely not
non-empty) and `oneOf` or `anyOf` present, both translator variants return
the variant translations joined by `" | "`; when `oneOf` is present, `anyOf`
is ignored entirely (it is quantified arbitrarily in the first clauses). -/
theorem C5_union_amended (ty ps req it dsc) (vs : List SchemaNode)
    (al : Option (List SchemaNode)) (ap : Option (Bool ⊕ SchemaNode)) :
    (∀ ao, IndexTS.jsonSchemaToTS (.mk ty ps req it dsc none (some vs) ao al ap)
      = String.intercalate " | " (vs.map IndexTS.jsonSchemaToTS))
    ∧ (∀ ao indent,
        Part001.jsonSchemaToTS (.mk ty ps req it dsc none (some vs) ao al ap) indent
          = String.intercalate " | "
              (vs.map (fun v => Part001.jsonSchemaToTS v indent)))
    ∧ (IndexTS.jsonSchemaToTS (.mk ty ps req it dsc none none (some vs) al ap)
        = String.intercalate " | " (vs.map IndexTS.jsonSchemaToTS))
    ∧ (∀ indent,
        Part001.jsonSchemaToTS (.mk ty ps req it dsc none none (some vs) al ap) indent
          = String.intercalate " | "
              (vs.map (fun v => Part001.jsonSchemaToTS v indent))) := by
  refine ⟨fun ao => ?_, fun ao indent => ?_, ?_, fun indent => ?_⟩
  · rw [IndexTS.ts_oneOf, IndexTS.tsList_eq_map]
  · rw [Part001.tsP_oneOf, Part001.tsListP_eq_map]
  · rw [IndexTS.ts_anyOf, IndexTS.tsList_eq_map]
  · rw [Part001.tsP_anyOf, Part001.tsListP_eq_map]

/-!
## Claim C6 — per-tool fallback in the runtime-validator backend
-/

/-- C6: in the zod backend of `src/src/index.ts`, the per-tool generation is a
`map` over the tool list: the output has one entry per tool regardless of
conversion failures (the run is never aborted by one tool), and a tool whose
schema conversion throws gets exactly the permissive initializer `z.any()`
together with the logged warning (the `true` flag), wherever it sits in the
run. -/
theorem C6_per_tool_fallback :
    (∀ tools, (IndexTS.generateSchemas tools).length = tools.length)
    ∧ (∀ pre (name e : String) post,
        IndexTS.generateSchemas (pre ++ (name, Except.error e) :: post)
          = IndexTS.generateSchemas pre
              ++ (name, "z.any()", true) :: IndexTS.generateSchemas post)
    ∧ (∀ (name z : String),
        IndexTS.generateSchemas [(name, Except.ok z)]
          = [(name, fixZodSchema z, false)]) := by
  refine ⟨fun tools => ?_, fun pre name e post => ?_, fun name z => rfl⟩
  · simp [IndexTS.generateSchemas]
  · simp [IndexTS.generateSchemas, IndexTS.emitToolSchema]

/-- C6 witness: a two-tool run whose first tool's conversion fails and whose
second succeeds, instantiating the error clause; the failing tool yields
`z.any()` with a warning and the run still emits both tools. -/
theorem C6_per_tool_fallback_witness :
    IndexTS.generateSchemas
        ([] ++ ("bad", Except.error "unsupported") ::
          [("good", Except.ok "z.object(\x7b\x7d)")])
      = IndexTS.generateSchemas []
          ++ ("bad", "z.any()", true) ::
            IndexTS.generateSchemas [("good", Except.ok "z.object(\x7b\x7d)")]
    ∧ IndexTS.generateSchemas [("good", Except.ok "z.object(\x7b\x7d)")]
      = [("good", "z.object(\x7b\x7d)", false)] :=
  ⟨C6_per_tool_fallback.2.1 [] "bad" "unsupported"
      [("good", Except.ok "z.object(\x7b\x7d)")],
   by decide⟩

/-!
## Lemmas about the `fixZodSchema` scanner

These characterize the scanner universally: `dropLit`/`matchUnit`/`unitStates`
are sound (whatever they consume has the advertised shape) and complete (they
consume every well-formed occurrence), so every match of `matchZodAt` is
exactly a `.nullable()` insertion, a match fires at every occurrence, and the
scan of an arbitrary string rewrites at every occurrence position.
-/

theorem dropLit_sound : ∀ (l s r : List Char), dropLit l s = some r → s = l ++ r := by
  intro l
  induction l with
  | nil =>
    intro s r h
    simp only [dropLit, Option.some.injEq] at h
    simp [h]
  | cons c cs ih =>
    intro s r h
    cases s with
    | nil => simp [dropLit] at h
    | cons d ds =>
      have h' : (if c = d then dropLit cs ds else none) = some r := h
      split at h'
      · next hcd => simpa [← hcd] using congrArg (c :: ·) (ih ds r h')
      · simp at h'

theorem dropLit_complete : ∀ (l s : List Char), dropLit l (l ++ s) = some s := by
  intro l s
  induction l with
  | nil => rfl
  | cons c cs ih => simpa [dropLit] using ih

theorem takeWhile_append_stop (p : Char → Bool) :
    ∀ (l : List Char), (∀ x ∈ l, p x = true) → ∀ (c : Char), p c = false →
      ∀ (t : List Char), ((l ++ c :: t).takeWhile p) = l := by
  intro l
  induction l with
  | nil =>
    intro _ c hc t
    simp [List.takeWhile_cons, hc]
  | cons a l' ih =>
    intro hl c hc t
    have ha : p a = true := hl a (List.mem_cons_self a l')
    simp only [List.cons_append, List.takeWhile_cons, ha, if_true]
    rw [ih (fun x hx => hl x (List.mem_cons_of_mem a hx)) c hc t]

theorem dropWhile_append_stop (p : Char → Bool) :
    ∀ (l : List Char), (∀ x ∈ l, p x = true) → ∀ (c : Char), p c = false →
      ∀ (t : List Char), ((l ++ c :: t).dropWhile p) = c :: t := by
  intro l
  induction l with
  | nil =>
    intro _ c hc t
    simp [List.dropWhile_cons, hc]
  | cons a l' ih =>
    intro hl c hc t
    have ha : p a = true := hl a (List.mem_cons_self a l')
    simp only [List.cons_append, List.dropWhile_cons, ha, if_true]
    exact ih (fun x hx => hl x (List.mem_cons_of_mem a hx)) c hc t

theorem matchUnit_sound : ∀ (s u r : List Char), matchUnit s = some (u, r) →
    IsModUnit u ∧ s = u ++ r := by
  intro s u r h
  cases s with
  | nil => simp [matchUnit] at h
  | cons c s' =>
    simp only [matchUnit] at h
    split at h
    case isFalse => simp at h
    case isTrue hc =>
      split at h
      case isTrue => simp at h
      case isFalse hne =>
        split at h
        case h_1 => simp at h
        case h_2 c1 s2 hdw =>
          split at h
          case isFalse => simp at h
          case isTrue hc1 =>
            split at h
            case h_1 => simp at h
            case h_2 c2 s3 hdw2 =>
              split at h
              case isFalse => simp at h
              case isTrue hc2 =>
                simp only [Option.some.injEq, Prod.mk.injEq] at h
                obtain ⟨hu, hr⟩ := h
                subst hc hc1 hc2 hu hr
                constructor
                · refine ⟨s'.takeWhile lowerAlpha, s2.takeWhile (fun x => x ≠ ')'),
                    ?_, ?_, ?_, rfl⟩
                  · simpa using hne
                  · intro x hx
                    exact List.mem_takeWhile_imp hx
                  · intro hx
                    have := List.mem_takeWhile_imp hx
                    simp at this
                · have e1 : s'.takeWhile lowerAlpha ++ s'.dropWhile lowerAlpha = s' :=
                    List.takeWhile_append_dropWhile lowerAlpha s'
                  have e2 : s2.takeWhile (fun x => x ≠ ')')
                      ++ s2.dropWhile (fun x => x ≠ ')') = s2 :=
                    List.takeWhile_append_dropWhile _ s2
                  rw [hdw2] at e2
                  rw [hdw] at e1
                  simp only [List.cons_append, List.append_assoc, List.cons_append,
                    List.nil_append]
                  rw [e2, e1]

theorem matchUnit_complete : ∀ (u r : List Char), IsModUnit u →
    matchUnit (u ++ r) = some (u, r) := by
  intro u r hu
  obtain ⟨name, arg, hname, hlower, harg, rfl⟩ := hu
  have harg' : ∀ x ∈ arg, (fun x => decide ¬(x = ')')) x = true := by
    intro x hx
    simp
    intro he
    exact harg (he ▸ hx)
  have hgoal : ('.' :: name ++ '(' :: arg ++ [')']) ++ r
      = '.' :: (name ++ '(' :: (arg ++ ')' :: r)) := by
    simp
  have eqName : (name ++ '(' :: (arg ++ ')' :: r)).takeWhile lowerAlpha = name :=
    takeWhile_append_stop lowerAlpha name hlower '(' (by decide) (arg ++ ')' :: r)
  have eqDrop : (name ++ '(' :: (arg ++ ')' :: r)).dropWhile lowerAlpha
      = '(' :: (arg ++ ')' :: r) :=
    dropWhile_append_stop lowerAlpha name hlower '(' (by decide) (arg ++ ')' :: r)
  have eqArg : ((arg ++ ')' :: r).takeWhile (fun x => x ≠ ')')) = arg :=
    takeWhile_append_stop _ arg harg' ')' (by simp) r
  have eqDrop2 : ((arg ++ ')' :: r).dropWhile (fun x => x ≠ ')')) = ')' :: r :=
    dropWhile_append_stop _ arg harg' ')' (by simp) r
  have hne2 : name.isEmpty = false := by simpa using hname
  simp only [decide_not] at eqArg eqDrop2
  rw [hgoal]
  simp [matchUnit, eqName, eqDrop, eqArg, eqDrop2, hne2]

theorem unitStates_sound : ∀ (fuel : Nat) (s mods m : List Char),
    (mods, m) ∈ unitStates fuel s → IsModRun mods ∧ s = mods ++ m := by
  intro fuel
  induction fuel with
  | zero =>
    intro s mods m hmem
    simp only [unitStates, List.mem_singleton, Prod.mk.injEq] at hmem
    obtain ⟨h1, h2⟩ := hmem
    subst h1
    subst h2
    exact ⟨IsModRun.nil, rfl⟩
  | succ fuel ih =>
    intro s mods m hmem
    have hmem' : (mods, m) = ([], s) ∨ (mods, m) ∈ (match matchUnit s with
        | none => ([] : List (List Char × List Char))
        | some (u, r) =>
          (unitStates fuel r).map
            (fun cr : List Char × List Char => (u ++ cr.1, cr.2))) := by
      simpa [unitStates] using hmem
    rcases hmem' with heq | htail
    · injection heq with h1 h2
      subst h1
      subst h2
      exact ⟨IsModRun.nil, rfl⟩
    · cases hmu : matchUnit s with
      | none =>
        rw [hmu] at htail
        simp at htail
      | some ur =>
        obtain ⟨u, r⟩ := ur
        rw [hmu] at htail
        simp only [List.mem_map] at htail
        obtain ⟨⟨mods', m'⟩, hmem2, heq⟩ := htail
        obtain ⟨hrun', hsr⟩ := ih r mods' m' hmem2
        obtain ⟨huMod, hsur⟩ := matchUnit_sound s u r hmu
        cases heq
        constructor
        · exact IsModRun.cons u mods' huMod hrun'
        · rw [hsur, hsr, List.append_assoc]

theorem unitStates_complete : ∀ (mods : List Char), IsModRun mods →
    ∀ (m : List Char) (fuel : Nat), mods.length ≤ fuel →
      (mods, m) ∈ unitStates fuel (mods ++ m) := by
  intro mods hrun
  induction hrun with
  | nil =>
    intro m fuel _
    cases fuel with
    | zero => simp [unitStates]
    | succ fuel => simp [unitStates]
  | cons u rest hu hrest ih =>
    intro m fuel hlen
    have hulen : 1 ≤ u.length := by
      obtain ⟨name, arg, _, _, _, rfl⟩ := hu
      simp
    cases fuel with
    | zero =>
      exfalso
      rw [List.length_append] at hlen
      omega
    | succ fuel =>
      have hmu : matchUnit ((u ++ rest) ++ m) = some (u, rest ++ m) := by
        rw [List.append_assoc]
        exact matchUnit_complete u (rest ++ m) hu
      have hmem : (rest, m) ∈ unitStates fuel (rest ++ m) := by
        apply ih
        rw [List.length_append] at hlen
        omega
      have hexp : unitStates (fuel + 1) ((u ++ rest) ++ m)
          = ([], (u ++ rest) ++ m)
            :: ((unitStates fuel (rest ++ m)).map (fun cr => (u ++ cr.1, cr.2))) := by
        simp only [unitStates, hmu]
      rw [hexp]
      apply List.mem_cons_of_mem
      exact List.mem_map.mpr ⟨(rest, m), hmem, rfl⟩

theorem tryPrim_sound : ∀ (p : String) (v rep rest : List Char),
    tryPrim p v = some (rep, rest) →
    ∃ mods, IsModRun mods
      ∧ v = zodPrimLit p ++ (mods ++ (defaultNullLit ++ rest))
      ∧ rep = zodPrimLit p ++ (nullableLit ++ (mods ++ defaultNullLit)) := by
  intro p v rep rest h
  cases hd : dropLit (zodPrimLit p) v with
  | none =>
    rw [tryPrim, hd] at h
    cases h
  | some s1 =>
    rw [tryPrim, hd] at h
    obtain ⟨mr, hmr_mem, hmr⟩ := List.exists_of_findSome?_eq_some h
    obtain ⟨mods, m⟩ := mr
    have hmem : (mods, m) ∈ unitStates s1.length s1 := List.mem_reverse.mp hmr_mem
    obtain ⟨hrun, hs1⟩ := unitStates_sound s1.length s1 mods m hmem
    cases hdn : dropLit defaultNullLit m with
    | none => rw [hdn] at hmr; cases hmr
    | some r2 =>
      rw [hdn] at hmr
      have hmr' : (zodPrimLit p ++ nullableLit ++ mods ++ defaultNullLit, r2)
          = (rep, rest) := by simpa using hmr
      injection hmr' with hrep hrest
      refine ⟨mods, hrun, ?_, ?_⟩
      · rw [dropLit_sound _ _ _ hd, hs1, dropLit_sound _ _ _ hdn, ← hrest]
      · rw [← hrep]
        simp [List.append_assoc]

theorem matchZodAt_sound : ∀ (v rep rest : List Char),
    matchZodAt v = some (rep, rest) →
    ∃ p mods, p ∈ zodPrimTokens ∧ IsModRun mods
      ∧ v = zodPrimLit p ++ (mods ++ (defaultNullLit ++ rest))
      ∧ rep = zodPrimLit p ++ (nullableLit ++ (mods ++ defaultNullLit)) := by
  intro v rep rest h
  obtain ⟨p, hp_mem, hp⟩ := List.exists_of_findSome?_eq_some h
  obtain ⟨mods, h1, h2, h3⟩ := tryPrim_sound p v rep rest hp
  exact ⟨p, mods, hp_mem, h1, h2, h3⟩

theorem tryPrim_complete : ∀ (p : String) (mods rest : List Char), IsModRun mods →
    (tryPrim p (zodPrimLit p ++ (mods ++ (defaultNullLit ++ rest)))).isSome = true := by
  intro p mods rest hmods
  have hd : dropLit (zodPrimLit p) (zodPrimLit p ++ (mods ++ (defaultNullLit ++ rest)))
      = some (mods ++ (defaultNullLit ++ rest)) := dropLit_complete _ _
  rw [tryPrim, hd]
  simp only [List.findSome?_isSome_iff, List.mem_reverse]
  refine ⟨(mods, defaultNullLit ++ rest), ?_, ?_⟩
  · apply unitStates_complete mods hmods (defaultNullLit ++ rest)
    rw [List.length_append]
    omega
  · have hdn : dropLit defaultNullLit (defaultNullLit ++ rest) = some rest :=
      dropLit_complete _ _
    simp [hdn]

theorem matchZodAt_complete : ∀ (p : String) (mods rest : List Char),
    p ∈ zodPrimTokens → IsModRun mods →
    (matchZodAt (zodPrimLit p ++ (mods ++ (defaultNullLit ++ rest)))).isSome = true := by
  intro p mods rest hp hmods
  have h := tryPrim_complete p mods rest hmods
  rw [matchZodAt]
  simp only [List.findSome?_isSome_iff]
  exact ⟨p, hp, by simpa using h⟩

theorem matchZodAt_shrinks : ∀ (v rep rest : List Char),
    matchZodAt v = some (rep, rest) → rest.length < v.length := by
  intro v rep rest h
  obtain ⟨p, mods, _, _, hv, _⟩ := matchZodAt_sound v rep rest h
  have h14 : defaultNullLit.length = 14 := rfl
  rw [hv]
  simp only [zodPrimLit, List.length_append, List.length_cons]
  omega

theorem fixZodLoop_fuel_congr :
    ∀ (n : Nat) (s : List Char), s.length = n →
      ∀ f1 f2, n ≤ f1 → n ≤ f2 → fixZodLoop f1 s = fixZodLoop f2 s := by
  intro n
  induction n using Nat.strong_induction_on with
  | _ n ih =>
    intro s hs f1 f2 h1 h2
    cases s with
    | nil => cases f1 <;> cases f2 <;> rfl
    | cons c cs =>
      have hlc : (c :: cs).length = cs.length + 1 := rfl
      subst hs
      cases f1 with
      | zero => omega
      | succ a =>
        cases f2 with
        | zero => omega
        | succ b =>
          show (match matchZodAt (c :: cs) with
                | some (rep, rest) => rep ++ fixZodLoop a rest
                | none => c :: fixZodLoop a cs) =
              (match matchZodAt (c :: cs) with
                | some (rep, rest) => rep ++ fixZodLoop b rest
                | none => c :: fixZodLoop b cs)
          cases hm : matchZodAt (c :: cs) with
          | none =>
            show c :: fixZodLoop a cs = c :: fixZodLoop b cs
            rw [ih cs.length (by omega) cs rfl a b (by omega) (by omega)]
          | some rr =>
            obtain ⟨rep, rest⟩ := rr
            show rep ++ fixZodLoop a rest = rep ++ fixZodLoop b rest
            have hlt := matchZodAt_shrinks (c :: cs) rep rest hm
            rw [ih rest.length (by omega) rest rfl a b (by omega) (by omega)]

theorem fixZodLoop_scan :
    ∀ (u v rep rest : List Char),
      (∀ u1 u2, u = u1 ++ u2 → u2 ≠ [] → matchZodAt (u2 ++ v) = none) →
      matchZodAt v = some (rep, rest) →
      ∀ fuel, (u ++ v).length ≤ fuel →
        fixZodLoop fuel (u ++ v) = u ++ rep ++ fixZodLoop rest.length rest := by
  intro u
  induction u with
  | nil =>
    intro v rep rest _ hm fuel hfuel
    simp only [List.nil_append] at hfuel ⊢
    cases v with
    | nil =>
      rw [show matchZodAt ([] : List Char) = none from rfl] at hm
      cases hm
    | cons c cs =>
      have hlc : (c :: cs).length = cs.length + 1 := rfl
      cases fuel with
      | zero => omega
      | succ f =>
        show (match matchZodAt (c :: cs) with
              | some (rep, rest) => rep ++ fixZodLoop f rest
              | none => c :: fixZodLoop f cs)
            = rep ++ fixZodLoop rest.length rest
        rw [hm]
        show rep ++ fixZodLoop f rest = rep ++ fixZodLoop rest.length rest
        have hlt := matchZodAt_shrinks (c :: cs) rep rest hm
        rw [fixZodLoop_fuel_congr rest.length rest rfl f rest.length (by omega)
          (Nat.le_refl _)]
  | cons c u' ihu =>
    intro v rep rest hscan hm fuel hfuel
    have hlen : ((c :: u') ++ v).length = (u' ++ v).length + 1 := by simp
    cases fuel with
    | zero => omega
    | succ f =>
      have hnone : matchZodAt ((c :: u') ++ v) = none :=
        hscan [] (c :: u') (by simp) (by simp)
      have hnone' : matchZodAt (c :: (u' ++ v)) = none := by
        rw [← List.cons_append]
        exact hnone
      show (match matchZodAt (c :: (u' ++ v)) with
            | some (rep, rest) => rep ++ fixZodLoop f rest
            | none => c :: fixZodLoop f (u' ++ v))
          = (c :: u') ++ rep ++ fixZodLoop rest.length rest
      rw [hnone']
      show c :: fixZodLoop f (u' ++ v) = (c :: u') ++ rep ++ fixZodLoop rest.length rest
      have hscan' : ∀ u1 u2, u' = u1 ++ u2 → u2 ≠ [] → matchZodAt (u2 ++ v) = none :=
        fun u1 u2 hh hne => hscan (c :: u1) u2 (by rw [hh, List.cons_append]) hne
      rw [ihu v rep rest hscan' hm f (by omega)]
      simp
/-!
## Claim C7 — the nullable-default textual correction
-/

theorem fixZodLoop_of_noOcc :
    ∀ (fuel : Nat) (s : List Char), noZodOcc s = true → fixZodLoop fuel s = s := by
  intro fuel
  induction fuel with
  | zero => intro s _; rfl
  | succ fuel ih =>
    intro s h
    cases s with
    | nil => rfl
    | cons c cs =>
      have h' : ((matchZodAt (c :: cs)).isNone && noZodOcc cs) = true := h
      have hsplit : matchZodAt (c :: cs) = none ∧ noZodOcc cs = true := by
        simpa [Option.isNone_iff_eq_none] using h'
      have h1 := hsplit.1
      have h2 := hsplit.2
      show (match matchZodAt (c :: cs) with
            | some (rep, rest) => rep ++ fixZodLoop fuel rest
            | none => c :: fixZodLoop fuel cs) = c :: cs
      rw [h1]
      show c :: fixZodLoop fuel cs = c :: cs
      rw [ih cs h2]

/-- C7: the nullable-default correction, characterized on every string.
(1) A string in which the pattern occurs nowhere is returned unchanged.
(2) Soundness, for arbitrary strings, positions and modifier runs: whenever
the pattern matches, the matched text is exactly `.<prim>()` ++ `mods` ++
`.default(null)` for one of the six primitive tokens and some run `mods` of
modifier-call units (`IsModRun`, e.g. a `.describe(...)` attachment), and the
replacement emitted is that same text with `.nullable()` inserted immediately
after the primitive call and before the intervening modifiers.
(3) Completeness: wherever such an occurrence begins — any token, any
modifier run, any remainder — the matcher fires.
(4) Scan behavior on an arbitrary string: if no match starts inside a prefix
`u` and a match starts right after `u`, the output is `u`, then the
replacement of (2), then the processed remainder; with (2) and (3) this says
`fixZodSchema` inserts `.nullable()` at every occurrence of a primitive-typed
call followed — possibly after intervening modifiers — by `.default(null)`,
and strings with no such occurrence are returned unchanged by (1).
(5) The end-to-end behavior on each primitive token, with and without an
intervening `.describe(...)`, also embedded inside a larger expression. -/
theorem C7_fixZod_nullable_insertion :
    (∀ zs : String, noZodOcc zs.data = true → fixZodSchema zs = zs)
    ∧ (∀ v rep rest : List Char, matchZodAt v = some (rep, rest) →
        ∃ p mods, p ∈ zodPrimTokens ∧ IsModRun mods
          ∧ v = zodPrimLit p ++ (mods ++ (defaultNullLit ++ rest))
          ∧ rep = zodPrimLit p ++ (nullableLit ++ (mods ++ defaultNullLit)))
    ∧ (∀ (p : String) (mods rest : List Char), p ∈ zodPrimTokens → IsModRun mods →
        (matchZodAt (zodPrimLit p ++ (mods ++ (defaultNullLit ++ rest)))).isSome
          = true)
    ∧ (∀ (u v rep rest : List Char),
        (∀ u1 u2, u = u1 ++ u2 → u2 ≠ [] → matchZodAt (u2 ++ v) = none) →
        matchZodAt v = some (rep, rest) →
        fixZodSchema (String.mk (u ++ v))
          = String.mk u ++ String.mk rep ++ fixZodSchema (String.mk rest))
    ∧ (∀ p ∈ zodPrimTokens,
        fixZodSchema ("z." ++ p ++ "().default(null)")
          = "z." ++ p ++ "().nullable().default(null)"
        ∧ fixZodSchema ("z." ++ p ++ "().describe(\"d\").default(null)")
          = "z." ++ p ++ "().nullable().describe(\"d\").default(null)"
        ∧ fixZodSchema
            ("z.object(\x7b a: z." ++ p
              ++ "().describe(\"d\").default(null), b: z.number() \x7d)")
          = "z.object(\x7b a: z." ++ p
              ++ "().nullable().describe(\"d\").default(null), b: z.number() \x7d)") := by
  refine ⟨?_, matchZodAt_sound, matchZodAt_complete, ?_, ?_⟩
  · intro zs h
    show String.mk (fixZodLoop zs.data.length zs.data) = zs
    rw [fixZodLoop_of_noOcc zs.data.length zs.data h]
  · intro u v rep rest hscan hm
    show String.mk (fixZodLoop (u ++ v).length (u ++ v)) = _
    rw [fixZodLoop_scan u v rep rest hscan hm (u ++ v).length (Nat.le_refl _)]
    rfl
  · intro p hp
    fin_cases hp <;> exact ⟨by decide, by decide, by decide⟩

/-- C7 witness: the no-occurrence clause applied to the concrete string
`z.object(\x7b\x7d)`; the scan clause applied at the empty prefix to the
concrete occurrence `.string().default(null)` (whose match/replacement pair
is discharged by `decide`); and the end-to-end clause at the token
`"string"`. -/
theorem C7_fixZod_nullable_insertion_witness :
    fixZodSchema "z.object(\x7b\x7d)" = "z.object(\x7b\x7d)"
    ∧ fixZodSchema (String.mk (([] : List Char) ++ ".string().default(null)".data))
        = String.mk ([] : List Char)
            ++ String.mk ".string().nullable().default(null)".data
            ++ fixZodSchema (String.mk ([] : List Char))
    ∧ fixZodSchema ("z." ++ "string" ++ "().default(null)")
        = "z." ++ "string" ++ "().nullable().default(null)" :=
  ⟨C7_fixZod_nullable_insertion.1 "z.object(\x7b\x7d)" (by decide),
   C7_fixZod_nullable_insertion.2.2.2.1 [] ".string().default(null)".data
     ".string().nullable().default(null)".data []
     (fun u1 u2 h hne => absurd (List.append_eq_nil.mp h.symm).2 hne)
     (by decide),
   (C7_fixZod_nullable_insertion.2.2.2.2 "string" (by decide)).1⟩

/-!
## Claim C8 — identifier normalization and silent collisions
-/

/-- C8: the raw-identifier normalizer maps every character outside
`[A-Za-z0-9_]` to `_` (character-by-character, hence length-preserving), so
the distinct tool names `do-thing` and `do_thing` both normalize to
`do_thing`; when both occur in one run, the generator emits a declaration for
each tool, in run order, under the *same* derived type name with no collision
detection or error — so the textually later declaration (the second tool's)
is the one a last-write-wins reader ends up with. -/
theorem C8_identifier_collision :
    (∀ s : String, (toValidIdentifier s).data
        = s.data.map (fun c => if isIdentChar c then c else '_'))
    ∧ (∀ s : String, (toValidIdentifier s).length = s.length)
    ∧ toValidIdentifier "do-thing" = "do_thing"
    ∧ toValidIdentifier "do_thing" = "do_thing"
    ∧ Part001.genToolDecls
        [("do-thing", SchemaNode.strNode), ("do_thing", SchemaNode.numNode)]
        = [("DoThingParams", "export type DoThingParams = string;"),
           ("DoThingParams", "export type DoThingParams = number;")]
    ∧ (Part001.genToolDecls
        [("do-thing", SchemaNode.strNode), ("do_thing", SchemaNode.numNode)]).getLast?
        = some ("DoThingParams", "export type DoThingParams = number;") := by
  refine ⟨fun s => rfl, fun s => ?_, by decide, by decide, by decide, by decide⟩
  show (s.data.map (fun c => if isIdentChar c then c else '_')).length = s.data.length
  exact List.length_map _ _

/-!
## Claim C9 — array types: suffix attachment without parentheses
-/

/-- C9: the `src/unnamed/part_001` translator appends `[]` directly to the
translation of `items` with no parentheses, so an item type that is a union
renders as `string | number[]` (the suffix textually binds to the last
variant only), while the `src/src/index.ts` translator parenthesizes the item
type first, yielding `(string | number)[]`. -/
theorem C9_array_suffix :
    (∀ ps req dsc ap it indent,
      Part001.jsonSchemaToTS
          (.mk (some "array") ps req (some it) dsc none none none none ap) indent
        = Part001.jsonSchemaToTS it indent ++ "[]")
    ∧ Part001.jsonSchemaToTS
        (.mk (some "array") none none
          (some (.mk none none none none none none
            (some [SchemaNode.strNode, SchemaNode.numNode]) none none none))
          none none none none none none) 0
        = "string | number[]"
    ∧ (∀ ps req dsc ap it,
      IndexTS.jsonSchemaToTS
          (.mk (some "array") ps req (some it) dsc none none none none ap)
        = "(" ++ IndexTS.jsonSchemaToTS it ++ ")[]")
    ∧ IndexTS.jsonSchemaToTS
        (.mk (some "array") none none
          (some (.mk none none none none none none
            (some [SchemaNode.strNode, SchemaNode.numNode]) none none none))
          none none none none none none)
        = "(string | number)[]" := by
  refine ⟨fun ps req dsc ap it indent => ?_, by decide,
    fun ps req dsc ap it => ?_, by decide⟩
  · rw [Part001.tsP_typed]
    rfl
  · rw [IndexTS.ts_typed]
    rfl

/-!
## Claim C10 — unrecognized `type` values fall into the object-shape rule
-/

/-- C10: in the `src/src/index.ts` translator, a node (with no
`enum`/`oneOf`/`anyOf`/`allOf`) whose `type` is any string other than
`string`/`number`/`integer`/`boolean`/`null`/`array` — including unrecognized
values — is handled by `objectSchemaToTS` (the `case "object": default:`
switch arm), not by the unknown-type fallback; in particular `{type:"date"}`
(no properties, no additionalProperties) yields the empty-object literal. -/
theorem C10_unrecognized_type_object :
    (∀ (ty : String) ps req it dsc ap,
      ty ∉ (["string", "number", "integer", "boolean", "null", "array"] : List String) →
      IndexTS.jsonSchemaToTS (.mk (some ty) ps req it dsc none none none none ap)
        = IndexTS.objectSchemaToTS ps req ap)
    ∧ IndexTS.jsonSchemaToTS
        (.mk (some "date") none none none none none none none none none)
        = "\x7b\x7d" := by
  refine ⟨fun ty ps req it dsc ap h => ?_, by decide⟩
  simp only [List.mem_cons, List.not_mem_nil, or_false, not_or] at h
  apply IndexTS.ts_default
  simp only [ne_eq, Option.some.injEq]
  exact ⟨h.1, h.2.1, h.2.2.1, h.2.2.2.1, h.2.2.2.2.1, h.2.2.2.2.2⟩

/-- C10 witness: the quantified clause applied to the unrecognized type
string `"date"`, with the resulting object-shape fallback evaluated. -/
theorem C10_unrecognized_type_object_witness :
    IndexTS.jsonSchemaToTS
        (.mk (some "date") none none none none none none none none none)
      = IndexTS.objectSchemaToTS none none none
    ∧ IndexTS.objectSchemaToTS none none none = "\x7b\x7d" :=
  ⟨C10_unrecognized_type_object.1 "date" none none none none none (by decide),
   by decide⟩
